import Mathlib

/-!
Verification development for the `ekernel` kernel-update tool.

The definitions below are a shallow embedding of `ekernel.py`:
  * `version` — the version-extraction function (regex search for
    `(\d+.\d+.\d+)-gentoo(-\w+\d+)?` followed by `packaging.version.Version`
    construction on the concatenated groups);
  * `Kernel` — the kernel-record value type and its derived paths;
  * `kernelList` / `kernelLatest` — enumeration of `/usr/src/linux-*`;
  * `clean` — the generation reconciler (`ekernel.clean`);
  * `efiParse` — the firmware boot-entry parser inside the `efi` decorator;
  * `efiWrap` — the mount/unmount discipline of the `efi` decorator;
  * `install` — the install workflow step sequence.

Python strings are modelled through their character lists; Python's slicing
and `str.find` conventions (negative indices, `-1` for "not found") are
reproduced by `pyIdx`, `pySlice` and `pyFind`.
-/

namespace Ekernel

/-- Python exception values that `ekernel.py` can produce on the paths
modelled here.  `attrError` is the `AttributeError` raised by calling
`.groups()` on a failed `re.search`; `invalidVersion` is
`packaging.version.InvalidVersion` (a `ValueError` subclass); the remaining
constructors carry the message or key of the corresponding Python raise. -/
inductive PyErr where
  | attrError : PyErr
  | invalidVersion (s : String) : PyErr
  | valueError (msg : String) : PyErr
  | fileNotFound (msg : String) : PyErr
  | runtimeError (msg : String) : PyErr
  | keyError (key : String) : PyErr
  | processError (cmd : String) : PyErr
  | indexError : PyErr
  | assertFailed : PyErr
  | unboundLocal (name : String) : PyErr
  deriving DecidableEq, Repr

/-- Decidable equality of `Except` results. -/
instance {ε α : Type} [DecidableEq ε] [DecidableEq α] : DecidableEq (Except ε α)
  | .error e, .error f =>
    if h : e = f then .isTrue (by rw [h])
    else .isFalse (fun hh => h (by cases hh; rfl))
  | .error _, .ok _ => .isFalse (fun hh => Except.noConfusion hh)
  | .ok _, .error _ => .isFalse (fun hh => Except.noConfusion hh)
  | .ok a, .ok b =>
    if h : a = b then .isTrue (by rw [h])
    else .isFalse (fun hh => h (by cases hh; rfl))

/-- Boolean success test for `Except`. -/
def isOkB {ε α : Type} : Except ε α → Bool
  | .ok _ => true
  | .error _ => false

/-- `isErr e` holds when an `Except` computation ended in an error. -/
@[reducible] def isErr {ε α : Type} (x : Except ε α) : Prop := isOkB x = false

/-! ## Python string primitives -/

/-- Python's `\d` on the ASCII inputs appearing here. -/
def isDigitC (c : Char) : Bool := c.isDigit

/-- Python's `\w` on the ASCII inputs appearing here. -/
def isWordC (c : Char) : Bool := c.isAlphanum || c = '_'

/-- Normalize a (possibly negative) Python index against a length,
clamping like slice bounds do. -/
def pyIdx (len : Nat) (i : Int) : Nat :=
  if i < 0 then (max 0 (len + i)).toNat else min i.toNat len

/-- Python slicing `s[a:b]` (on code points, with negative-index and
clamping semantics). -/
def pySlice (s : String) (a b : Int) : String :=
  let l := s.data
  let i := pyIdx l.length a
  let j := pyIdx l.length b
  ((l.drop i).take (j - i)).asString

/-- Python's `str.startswith` (kernel-reducible prefix test). -/
def startsWithS (s pre : String) : Bool := pre.data.isPrefixOf s.data

/-- Python's `str.endswith`. -/
def endsWithS (s suf : String) : Bool := suf.data.isSuffixOf s.data

/-- List membership under string equality (`x in somePathSet`). -/
def memS (x : String) (l : List String) : Bool := l.contains x

/-- `str.replace("\\", "/")` — a single-character pattern, so a
character-wise substitution. -/
def backslashToSlash : List Char → List Char
  | [] => []
  | c :: r => (if c = '\\' then '/' else c) :: backslashToSlash r

/-- First index of `sub` in `s` at or after (normalized) `start`;
`-1` when absent — Python's `str.find`. -/
def pyFindAux (sub : List Char) : List Char → Nat → Int
  | [], i => if sub = [] then (i : Int) else -1
  | l@(_ :: rest), i => if sub.isPrefixOf l then (i : Int) else pyFindAux sub rest (i + 1)

/-- Python's `s.find(sub, start)`. -/
def pyFind (s sub : String) (start : Int) : Int :=
  let l := s.data
  let st := pyIdx l.length start
  pyFindAux sub.data (l.drop st) st

/-- Python's `sub in s` substring test. -/
def pyIn (sub s : String) : Bool := 0 ≤ pyFind s sub 0

/-! ## The regex `(\d+.\d+.\d+)-gentoo(-\w+\d+)?`

`re.search` semantics: scan start positions left to right; at each
position run the backtracking matcher, greedy quantifiers first.  The
`.` metacharacter matches any character except a newline.  `firstSome`
realizes ordered alternative choice and `plusSplits` enumerates the
candidate splits of a greedy `X+`, longest first. -/

/-- First alternative (in order) on which `f` succeeds. -/
def firstSome {α β : Type} : List α → (α → Option β) → Option β
  | [], _ => none
  | x :: xs, f =>
    match f x with
    | some v => some v
    | none => firstSome xs f

/-- Candidate splits for a greedy `X+` over predicate `p`: the matched
part takes `n, n-1, …, 1` leading `p`-characters where `n` is the length
of the maximal `p`-prefix. -/
def plusSplits (p : Char → Bool) (l : List Char) : List (List Char × List Char) :=
  let n := (l.takeWhile p).length
  (List.range n).map (fun i => (l.take (n - i), l.drop (n - i)))

/-- The literal `-gentoo`. -/
def gentooLit : List Char := ['-', 'g', 'e', 'n', 't', 'o', 'o']

/-- The trailing optional group `(-\w+\d+)?`: returns the captured text
when the group participates in the match. -/
def matchOpt2 (l : List Char) : Option (List Char) :=
  match l with
  | '-' :: r =>
    firstSome (plusSplits isWordC r) (fun p =>
      let d := p.2.takeWhile isDigitC
      if d = [] then none else some ('-' :: (p.1 ++ d)))
  | _ => none

/-- Attempt the full pattern at the head of `l`; on success return the
two captured groups. -/
def matchAt (l : List Char) : Option (List Char × Option (List Char)) :=
  firstSome (plusSplits isDigitC l) (fun p1 =>
    match p1.2 with
    | [] => none
    | c1 :: r1 =>
      if c1 = '\n' then none else
      firstSome (plusSplits isDigitC r1) (fun p2 =>
        match p2.2 with
        | [] => none
        | c2 :: r2 =>
          if c2 = '\n' then none else
          firstSome (plusSplits isDigitC r2) (fun p3 =>
            if gentooLit.isPrefixOf p3.2 then
              some (p1.1 ++ c1 :: (p2.1 ++ c2 :: p3.1), matchOpt2 (p3.2.drop 7))
            else none)))

/-- `re.search`: try every start position, leftmost first. -/
def reSearch : List Char → Option (List Char × Option (List Char))
  | [] => none
  | l@(_ :: rest) =>
    match matchAt l with
    | some m => some m
    | none => reSearch rest

/-! ## `packaging.version.Version` (the fragment reachable here)

`version` only ever constructs `Version` from `<digits>C<digits>C<digits>`
optionally followed by `-<word-chars><digits>`.  The parser below covers
the PEP 440 fragment of plain release segments plus an optional
post-release (`post`/`rev`/`r` spellings and the implicit `-N` form);
every string outside this fragment is rejected like `InvalidVersion`.
Ordering compares the release tuples (zero-padded, as PEP 440's
trailing-zero stripping is order-equivalent to zero-padding) and then the
post-release number, an absent post-release sorting first. -/

/-- Numeric value of a digit string. -/
def digitsVal (l : List Char) : Nat :=
  l.foldl (fun a c => 10 * a + (c.toNat - 48)) 0

/-- A parsed PEP 440 version of the fragment used by `ekernel`:
release segments plus optional post-release. -/
structure PVersion where
  release : List Nat
  post : Option Nat
  deriving DecidableEq, Repr

/-- Accumulating scanner for the release run `digits+(.digits+)*`:
`cur` is the numeric value of the digits of the current segment read so
far (at least one digit has been consumed). -/
def parseReleaseGo (cur : Nat) : List Char → List Nat × List Char
  | [] => ([cur], [])
  | c :: r =>
    if isDigitC c then parseReleaseGo (10 * cur + (c.toNat - 48)) r
    else if c = '.' then
      match r with
      | r0 :: r1 =>
        if isDigitC r0 then
          let p := parseReleaseGo (r0.toNat - 48) r1
          (cur :: p.1, p.2)
        else ([cur], c :: r)
      | [] => ([cur], [c])
    else ([cur], c :: r)

/-- Parse the maximal leading `digits+(.digits+)*` run, returning the
release numbers and the unconsumed remainder; `none` when the input does
not begin with a digit. -/
def parseRelease (l : List Char) : Option (List Nat × List Char) :=
  match l with
  | c :: r => if isDigitC c then some (parseReleaseGo (c.toNat - 48) r) else none
  | [] => none

/-- Letters test for the post-release word. -/
def isAlphaC (c : Char) : Bool := c.isAlpha

/-- Drop one optional PEP 440 separator (`-`, `.` or `_`). -/
def dropSep (l : List Char) : List Char :=
  match l with
  | c :: r => if c = '-' ∨ c = '.' ∨ c = '_' then r else l
  | [] => l

/-- Parse the optional post-release suffix after the release segments:
empty input means no post-release; `sep? (post|rev|r) sep? digits?` or the
implicit `-digits` form yield one; anything else is invalid. -/
def parsePost (l : List Char) : Option (Option Nat) :=
  match l with
  | [] => some none
  | '-' :: r =>
    if r ≠ [] ∧ r.all isDigitC then some (some (digitsVal r))
    else parsePostWord ('-' :: r)
  | _ => parsePostWord l
where
  /-- The lettered post-release spellings. -/
  parsePostWord (l : List Char) : Option (Option Nat) :=
    let l1 := dropSep l
    let w := l1.takeWhile isAlphaC
    let r := l1.dropWhile isAlphaC
    if w = ['p', 'o', 's', 't'] ∨ w = ['r', 'e', 'v'] ∨ w = ['r'] then
      let r1 := dropSep r
      let dg := r1.takeWhile isDigitC
      let rest := r1.dropWhile isDigitC
      if rest = [] then some (some (digitsVal dg)) else none
    else none

/-- `packaging.version.Version(s)` on the fragment described above. -/
def pepParse (s : String) : Except PyErr PVersion :=
  match parseRelease s.data with
  | none => .error (.invalidVersion s)
  | some (ns, rest) =>
    match parsePost rest with
    | some p => .ok ⟨ns, p⟩
    | none => .error (.invalidVersion s)

/-- Zero-pad a release tuple to length `n`. -/
def padTo (l : List Nat) (n : Nat) : List Nat :=
  l ++ List.replicate (n - l.length) 0

/-- Lexicographic strict order on equal-length numeric lists. -/
def natListLt : List Nat → List Nat → Bool
  | a :: as, b :: bs => a < b || (a = b && natListLt as bs)
  | _, _ => false

/-- Comparison key of the post-release part: absent sorts first. -/
def postKey : Option Nat → Int
  | none => -1
  | some n => n

/-- `Version.__lt__` on the fragment: release tuples first (zero-padded),
then the post-release key. -/
def vlt (v w : PVersion) : Bool :=
  let n := max v.release.length w.release.length
  let a := padTo v.release n
  let b := padTo w.release n
  natListLt a b || (a = b && postKey v.post < postKey w.post)

/-- `base_version`: the release segments re-rendered, dot-separated
(post-release dropped). -/
def baseVersion (v : PVersion) : String :=
  String.intercalate "." (v.release.map toString)

/-- `ekernel.version`: regex-search the string, join the non-`None`
groups and hand them to `Version`.  A failed search raises
`AttributeError` (calling `.groups()` on `None`). -/
def version (s : String) : Except PyErr PVersion :=
  match reSearch s.data with
  | none => .error .attrError
  | some (g1, g2) => pepParse (g1 ++ g2.getD []).asString

/-! ## Kernel records and enumeration

The filesystem is abstracted to the three directory listings the clean
and list operations touch: the entry names under `/usr/src`, under
`/lib/modules`, and in the boot image's directory on the ESP
(`efi.img.parent`).  Paths are identified by their entry name within the
respective directory. -/

/-- Directory listings seen by `Kernel.list` and `clean`. -/
structure FS where
  srcDirs : List String
  moduleDirs : List String
  espFiles : List String
  deriving DecidableEq, Repr

/-- One kernel generation: the source directory name and its parsed
version (`Kernel.__init__`'s `self.src.name` / `self.version`). -/
structure Kernel where
  srcName : String
  ver : PVersion
  deriving DecidableEq, Repr

/-- `self.modules = /lib/modules/{base_version}-gentoo` (entry name). -/
def Kernel.modulesName (k : Kernel) : String := baseVersion k.ver ++ "-gentoo"

/-- `self.bkp = efi.img.parent / "gentoo-{base_version}.efi"` (entry name). -/
def Kernel.bkpName (k : Kernel) : String := "gentoo-" ++ baseVersion k.ver ++ ".efi"

/-- `Kernel.__init__`: requires the source directory to exist, then parses
the version from the directory name; any parse failure is re-raised as
`ValueError("error: illegal source …")`. -/
def kernelInit (fs : FS) (name : String) : Except PyErr Kernel :=
  if name ∈ fs.srcDirs then
    match version name with
    | .ok v => .ok ⟨name, v⟩
    | .error _ => .error (.valueError ("error: illegal source " ++ name))
  else .error (.valueError ("error: missing source " ++ name))

/-- `Kernel.bootable`: modules directory and backup image both exist. -/
def bootable (fs : FS) (k : Kernel) : Bool :=
  memS k.modulesName fs.moduleDirs && memS k.bkpName fs.espFiles

/-- Insert into a version-descending list (stable, as `sorted` is). -/
def insDesc (k : Kernel) : List Kernel → List Kernel
  | [] => [k]
  | y :: ys => if vlt k.ver y.ver then y :: insDesc k ys else k :: y :: ys

/-- Stable descending sort by version (`sorted(key=…version, reverse=True)`). -/
def sortDesc : List Kernel → List Kernel
  | [] => []
  | k :: ks => insDesc k (sortDesc ks)

/-- `Kernel.src.glob("linux-*")`: names under `/usr/src` starting with
`linux-`, in directory order. -/
def globLinux (fs : FS) : List String :=
  fs.srcDirs.filter (fun d => startsWithS d "linux-")

/-- The generator `(Kernel(src) for src in cls.src.glob("linux-*"))`:
construct each record in directory order, the first failure aborting the
whole enumeration. -/
def kernelsOf (fs : FS) : List String → Except PyErr (List Kernel)
  | [] => .ok []
  | d :: ds =>
    match kernelInit fs d with
    | .error e => .error e
    | .ok k =>
      match kernelsOf fs ds with
      | .error e => .error e
      | .ok ks => .ok (k :: ks)

/-- `Kernel.list()`: construct a `Kernel` for every `linux-*` source
directory — any construction failure aborts the whole enumeration — and
sort descending by version. -/
def kernelList (fs : FS) : Except PyErr (List Kernel) :=
  match kernelsOf fs (globLinux fs) with
  | .error e => .error e
  | .ok ks => .ok (sortDesc ks)

/-- `Kernel.latest()`: head of the descending list (`cls.list()[0]`,
an `IndexError` when empty).  `configure`/`build`/`install` evaluate this
for their `-s` default. -/
def kernelLatest (fs : FS) : Except PyErr Kernel :=
  match kernelList fs with
  | .error e => .error e
  | .ok [] => .error .indexError
  | .ok (k :: _) => .ok k

/-! ## The clean reconciler (`ekernel.clean`) -/

/-- Mutating operations `clean` can perform. -/
inductive Action where
  | emergeDepclean : Action
  | deleteSource (name : String) : Action
  | deleteModules (name : String) : Action
  | deleteImage (name : String) : Action
  | deleteBootEntry (num : String) : Action
  deriving DecidableEq, Repr

/-- The fallback boot entry data harvested by the `efi` decorator
(`efi.bkp`'s `num` and `img` keys; `img` is the entry name of the
fallback image inside the ESP boot directory). -/
structure Fallback where
  num : String
  img : String
  deriving DecidableEq, Repr

/-- Outcome of one `clean` run: the retained kernels, the three removal
lists, and the mutations performed. -/
structure CleanReport where
  keptKernels : List Kernel
  rmSources : List String
  rmModules : List String
  rmImages : List String
  actions : List Action
  deriving DecidableEq, Repr

/-- The retention loop of `clean`: walk the descending kernel list and,
while the keep counter is nonzero, retain each bootable kernel and
decrement.  The counter is `args.keep` (checked `≥ 1` beforehand); the
loop never consults which kernel is current. -/
def keepWalk (fs : FS) : List Kernel → Nat → List Kernel
  | [], _ => []
  | k :: ks, n =>
    if n ≠ 0 && bootable fs k then k :: keepWalk fs ks (n - 1)
    else keepWalk fs ks n

/-- `ekernel.clean` (lines 606–673): reject `keep < 1`; retain the first
`keep` bootable kernels of the descending list; collect every other
`linux-*` source, `*-gentoo` module directory and `gentoo-*` ESP file for
removal; then (non-dry only) run `emerge -c gentoo-sources`, delete the
collected paths, and delete the fallback firmware entry when its image is
gone or among the removed images.  Dry runs perform none of these
mutations. -/
def clean (fs : FS) (bkp : Option Fallback) (keep : Int) (dry : Bool) :
    Except PyErr CleanReport :=
  if keep < 1 then
    .error (.valueError "error: at least one bootable kernel must be kept")
  else
    match kernelList fs with
    | .error e => .error e
    | .ok ks =>
      let kept := keepWalk fs ks keep.toNat
      let rmSources := (globLinux fs).filter
          (fun d => !memS d (kept.map Kernel.srcName))
      let rmModules := (fs.moduleDirs.filter (fun d => endsWithS d "-gentoo")).filter
          (fun d => !memS d (kept.map Kernel.modulesName))
      let rmImages := (fs.espFiles.filter (fun f => startsWithS f "gentoo-")).filter
          (fun f => !memS f (kept.map Kernel.bkpName))
      let entryRemoval : List Action :=
        match bkp with
        | some b =>
          if !memS b.img fs.espFiles || memS b.img rmImages then
            [Action.deleteBootEntry b.num]
          else []
        | none => []
      let actions : List Action :=
        if dry then []
        else
          Action.emergeDepclean ::
            (rmSources.map Action.deleteSource ++
             rmModules.map Action.deleteModules ++
             rmImages.map Action.deleteImage ++ entryRemoval)
      .ok ⟨kept, rmSources, rmModules, rmImages, actions⟩

/-! ## Firmware boot-entry parsing (the `efi` decorator, lines 146–171) -/

/-- The module-wide entry data the decorator computes: `efi.label`, the
current entry's loader path, `efi.bkp["label"]`, `efi.bkp["num"]` and
`efi.bkp["img"]`.  `none` models "name/key never assigned". -/
structure EfiInfo where
  label : Option String
  img : Option String
  bkpLabel : Option String
  bkpNum : Option String
  bkpImg : Option String
  deriving DecidableEq, Repr

/-- The nested `loader` helper: locate `File` from `start`, fail with
`RuntimeError` when absent, then slice six characters past it up to the
next `)` and turn backslashes into slashes.  (The source's slice reads
the enclosing loop variable, which equals the argument at both call
sites.) -/
def loader (line : String) (start : Int) : Except PyErr String :=
  let i := pyFind line "File" start
  if i < 0 then .error (.runtimeError ("error: missing boot image:\n" ++ line))
  else
    let i2 : Int := i + 6
    .ok (backslashToSlash (pySlice line i2 (pyFind line ")" i2)).data).asString

/-- The `BootCurrent` scan: slice `[13:17]` of the first matching line,
`"NaN"` when absent. -/
def bootCurrentNum (lines : List String) : String :=
  match lines.find? (fun l => startsWithS l "BootCurrent") with
  | some l => pySlice l 13 17
  | none => "NaN"

/-- The fallback-entry loop of the decorator: over a nonempty listing it
reads `efi.bkp["label"]` — raising `KeyError` when the current-entry loop
never assigned it — and takes `num` (slice `[4:8]`) and the loader path
from the first line containing the fallback label. -/
def efiFallbackScan (lines : List String) (label? img? : Option String) :
    Except PyErr EfiInfo :=
  let bkpLabel? := label?.map (fun s => s ++ " (fallback)")
  match lines with
  | [] => .ok ⟨label?, img?, bkpLabel?, none, none⟩
  | _ :: _ =>
    match bkpLabel? with
    | none => .error (.keyError "label")
    | some bl =>
      match lines.find? (fun l => pyIn bl l) with
      | some l =>
        match loader l 9 with
        | .error e => .error e
        | .ok bimg =>
          .ok ⟨label?, img?, bkpLabel?, some (pySlice l 4 8), some bimg⟩
      | none => .ok ⟨label?, img?, bkpLabel?, none, none⟩

/-- The entry-analysis phase of the decorator: find the current entry
(first line starting `Boot<num>`), take its label between the first space
and the next tab and its loader path; then scan for the fallback entry.
When no current entry line exists nothing is assigned, so the fallback
loop's first iteration raises `KeyError("label")` (and with no lines at
all, no loop body runs and no error occurs). -/
def efiParse (lines : List String) : Except PyErr EfiInfo :=
  let num := bootCurrentNum lines
  match lines.find? (fun l => startsWithS l ("Boot" ++ num)) with
  | some l =>
    let i : Int := pyFind l " " 0 + 1
    let j : Int := pyFind l "\t" i
    let label := pySlice l i j
    (match loader l j with
     | .error e => .error e
     | .ok img => efiFallbackScan lines (some label) (some img))
  | none => efiFallbackScan lines none none

/-- The parse both succeeded and assigned the current entry's loader
path — the precondition for the decorator's mount phase to reach the
mount subprocess at all (an `.ok` parse with no current entry leaves the
loop-local `img` unassigned and the mount phase raises
`UnboundLocalError` instead of mounting). -/
def hasLoaderB (x : Except PyErr EfiInfo) : Bool :=
  match x with
  | .ok info => info.img.isSome
  | .error _ => false

/-! ## The mount/unmount discipline of the `efi` decorator

`efi.skip` is the process-wide re-entrancy guard; `mounted` records
whether this invocation itself performed the physical mount.  The
external world is abstracted to: the firmware listing, whether `efi.img`
is already visible, whether `/etc/fstab` names an ESP mountpoint, the
mount tool's outcome, and whether the image is visible after mounting. -/

/-- Subprocess calls the decorator can make. -/
inductive MAct where
  | bootmgr : MAct
  | mountEsp : MAct
  | umountEsp : MAct
  deriving DecidableEq, Repr

/-- Outcome of `mount <esp>`: success, the recovered
"already mounted on <esp>" diagnostic, or any other failure. -/
inductive MountRes where
  | ok : MountRes
  | alreadyMounted : MountRes
  | failed : MountRes
  deriving DecidableEq, Repr

/-- External circumstances of one decorator activation. -/
structure EfiWorld where
  lines : List String
  imgExists : Bool
  fstabHasEsp : Bool
  mountRes : MountRes
  imgExistsAfterMount : Bool
  deriving DecidableEq, Repr

/-- Process state threaded through nested decorator activations:
the `efi.skip` guard and the subprocess trace. -/
structure MSt where
  skip : Bool
  acts : List MAct
  deriving DecidableEq, Repr

/-- The `locator` wrapper produced by the `efi` decorator.  With the
guard set it runs the body directly.  Otherwise it sets the guard, runs
`efibootmgr` and the entry analysis, mounts the ESP when the image is not
visible (treating the "already mounted" diagnostic as success without
claiming ownership), asserts the image is now visible, then runs the body
and — on every exit of the `try` — clears the guard and unmounts exactly
when this activation mounted.  When a mountpoint is found but the
current-entry loop never assigned the loop-local loader path, the path
update `efi.img = efi.esp / img` (line 182) raises `UnboundLocalError`
before any mount subprocess runs.  Failures before the `try` leave the
guard set, as in the source. -/
def efiWrap (w : EfiWorld) (body : MSt → MSt × Except PyErr Unit) (s : MSt) :
    MSt × Except PyErr Unit :=
  if s.skip then body s
  else
    let s1 : MSt := ⟨true, s.acts ++ [MAct.bootmgr]⟩
    match efiParse w.lines with
    | .error e => (s1, .error e)
    | .ok info =>
      let mountPhase : MSt × Except PyErr Bool :=
        if w.imgExists then (s1, .ok false)
        else if !w.fstabHasEsp then
          (s1, .error (.runtimeError "error: missing mountpoint of ESP"))
        else
          match info.img with
          | none => (s1, .error (.unboundLocal "img"))
          | some _ =>
            let s2 : MSt := ⟨true, s1.acts ++ [MAct.mountEsp]⟩
            match w.mountRes with
            | .ok => (s2, .ok true)
            | .alreadyMounted => (s2, .ok false)
            | .failed => (s2, .error (.runtimeError "mount: failed"))
      match mountPhase with
      | (s2, .error e) => (s2, .error e)
      | (s2, .ok mounted) =>
        if !(w.imgExists || w.imgExistsAfterMount) then (s2, .error .assertFailed)
        else
          let (s3, r) := body s2
          (⟨false, s3.acts ++ if mounted then [MAct.umountEsp] else []⟩, r)

/-- Two nested decorator-guarded workflows: the outer body invokes the
inner guarded workflow and, when it returns normally, finishes with
`afterOut`.  Both `innerOut` and `afterOut` may be exceptions. -/
def nestedEfi (w : EfiWorld) (innerOut afterOut : Except PyErr Unit) :
    MSt × Except PyErr Unit :=
  efiWrap w
    (fun s =>
      match efiWrap w (fun s2 => (s2, innerOut)) s with
      | (s', .ok _) => (s', afterOut)
      | (s', .error e) => (s', .error e))
    ⟨false, []⟩

/-! ## The install workflow (`ekernel.install`, lines 472–554) -/

/-- The externally visible steps of `install`, in source order. -/
inductive IStep where
  | eselectSymlink : IStep
  | copyBootImage : IStep
  | copyBackupImage : IStep
  | modulesInstall : IStep
  | moduleRebuild : IStep
  | copySynthBackup : IStep
  | findmnt : IStep
  | deleteOldEntry : IStep
  | createFallbackEntry : IStep
  deriving DecidableEq, Repr

/-- Command name of a step, used in its failure value. -/
def IStep.cmdName : IStep → String
  | .eselectSymlink => "eselect kernel set"
  | .copyBootImage => "cp bzImage bootx64.efi"
  | .copyBackupImage => "cp bzImage gentoo-version.efi"
  | .modulesInstall => "make modules_install"
  | .moduleRebuild => "emerge @module-rebuild"
  | .copySynthBackup => "cp bootx64.efi gentoo-release.efi"
  | .findmnt => "findmnt"
  | .deleteOldEntry => "efibootmgr -b num -B"
  | .createFallbackEntry => "efibootmgr -c"

/-- Success or failure of an attempted step. -/
def okFlag (b : Bool) (a : IStep) : Except PyErr Unit :=
  if b then .ok () else .error (.processError a.cmdName)

/-- External circumstances of one `install` run.  Each `…Ok` field says
whether the corresponding external operation succeeds; `contentMatch`
says whether some existing `gentoo*.efi` backup is byte-identical to the
running boot image; `runningRelease` is `platform.release()`;
`prevEntry` says whether the decorator found an existing fallback entry
(`"num" in efi.bkp`). -/
structure InstallWorld where
  bzImageExists : Bool
  eselectOk : Bool
  copyBootOk : Bool
  copyBkpOk : Bool
  modulesInstallOk : Bool
  moduleRebuildOk : Bool
  contentMatch : Bool
  runningRelease : String
  copySynthOk : Bool
  findmntOk : Bool
  prevEntry : Bool
  deleteEntryOk : Bool
  createEntryOk : Bool
  deriving DecidableEq, Repr

/-- The sequence of attempted steps with their outcomes.  Entries with no
step are pure computations that can raise (the `version` parse of the
running release when no backup matches by content). -/
def installEntries (w : InstallWorld) (bkpFlag : Bool) :
    List (Option IStep × Except PyErr Unit) :=
  [(some .eselectSymlink, okFlag w.eselectOk .eselectSymlink),
   (some .copyBootImage, okFlag w.copyBootOk .copyBootImage),
   (some .copyBackupImage, okFlag w.copyBkpOk .copyBackupImage),
   (some .modulesInstall, okFlag w.modulesInstallOk .modulesInstall),
   (some .moduleRebuild, okFlag w.moduleRebuildOk .moduleRebuild)] ++
  if bkpFlag then
    (if w.contentMatch then []
     else [(none, (version w.runningRelease).map (fun _ => ())),
           (some .copySynthBackup, okFlag w.copySynthOk .copySynthBackup)]) ++
    [(some .findmnt, okFlag w.findmntOk .findmnt)] ++
    (if w.prevEntry then [(some .deleteOldEntry, okFlag w.deleteEntryOk .deleteOldEntry)]
     else []) ++
    [(some .createFallbackEntry, okFlag w.createEntryOk .createFallbackEntry)]
  else []

/-- Run the entries in order, recording each attempted step and stopping
at the first failure. -/
def runSteps : List (Option IStep × Except PyErr Unit) → List IStep × Except PyErr Unit
  | [] => ([], .ok ())
  | (a, r0) :: rest =>
    match r0 with
    | .ok _ =>
      let (as, r) := runSteps rest
      (a.toList ++ as, r)
    | .error e => (a.toList, .error e)

/-- All steps of a run in which nothing fails. -/
def fullSteps (w : InstallWorld) (bkpFlag : Bool) : List IStep :=
  (installEntries w bkpFlag).filterMap (fun e => e.1)

/-- `ekernel.install` after the decorator phases: check the compiled
image exists (`FileNotFoundError` otherwise), then perform the step
sequence. -/
def install (w : InstallWorld) (bkpFlag : Bool) : List IStep × Except PyErr Unit :=
  if !w.bzImageExists then
    ([], .error (.fileNotFound "error: missing bzImage"))
  else runSteps (installEntries w bkpFlag)

/-! ## Concrete fixtures used in the claim theorems and witnesses -/

/-- Five generations; the three newest (positions 0, 1, 2) are complete,
position 0 being both newest and (per the spec scenario) the current one
— `clean` itself never consults which generation is current. -/
def fsA : FS :=
  ⟨["linux-5.15.5-gentoo", "linux-5.15.4-gentoo", "linux-5.15.3-gentoo",
    "linux-5.15.2-gentoo", "linux-5.15.1-gentoo"],
   ["5.15.5-gentoo", "5.15.4-gentoo", "5.15.3-gentoo"],
   ["gentoo-5.15.5.efi", "gentoo-5.15.4.efi", "gentoo-5.15.3.efi"]⟩

/-- The spec's end-to-end scenario: `5.15.23` (newest, not yet built,
hence incomplete), `5.15.16` (current), `5.15.3`, `5.15.2`, `5.15.1-r1`,
the last four complete. -/
def fsB : FS :=
  ⟨["linux-5.15.23-gentoo", "linux-5.15.16-gentoo", "linux-5.15.3-gentoo",
    "linux-5.15.2-gentoo", "linux-5.15.1-gentoo-r1"],
   ["5.15.16-gentoo", "5.15.3-gentoo", "5.15.2-gentoo", "5.15.1-gentoo"],
   ["gentoo-5.15.16.efi", "gentoo-5.15.3.efi", "gentoo-5.15.2.efi",
    "gentoo-5.15.1.efi"]⟩

/-- A source root with a single `linux-*` directory whose name carries no
parsable version. -/
def fsBad : FS := ⟨["linux-foo"], [], []⟩

/-- The dry-run report of `clean fsA none 1 true`. -/
def reportAdry : CleanReport :=
  ⟨[⟨"linux-5.15.5-gentoo", ⟨[5, 15, 5], none⟩⟩],
   ["linux-5.15.4-gentoo", "linux-5.15.3-gentoo", "linux-5.15.2-gentoo",
    "linux-5.15.1-gentoo"],
   ["5.15.4-gentoo", "5.15.3-gentoo"],
   ["gentoo-5.15.4.efi", "gentoo-5.15.3.efi"],
   []⟩

/-- The entry line quoted by the spec (no `File(` token). -/
def specEntryLine : String := "Boot0001* Gentoo\tHD()/\\EFI\\Gentoo\\bootx64.efi)"

/-- The spec's firmware dump, verbatim. -/
def dumpSpec : List String := ["BootCurrent: 0001", specEntryLine]

/-- The same dump with the loader path wrapped in `File(…)` as the code
requires. -/
def dumpFile : List String :=
  ["BootCurrent: 0001", "Boot0001* Gentoo\tHD()/File(\\EFI\\Gentoo\\bootx64.efi)"]

/-- A dump whose `BootCurrent` value matches no entry line. -/
def dumpNoCur : List String :=
  ["BootCurrent: 0007", "Boot0001* Gentoo\tHD()/File(\\EFI\\Gentoo\\bootx64.efi)"]

/-- `dumpFile` extended with a registered fallback entry. -/
def dumpWithFb : List String :=
  dumpFile ++
    ["Boot0003* Gentoo (fallback)\tHD()/File(\\EFI\\Gentoo\\gentoo-5.15.3.efi)"]

/-- A world in which the ESP must be and can be mounted. -/
def wEfiGood : EfiWorld := ⟨dumpFile, false, true, .ok, true⟩

/-- The same world but the mount tool reports "already mounted". -/
def wEfiAlready : EfiWorld := { wEfiGood with mountRes := .alreadyMounted }

/-- An install world in which every external operation succeeds, an
existing backup matches the running image by content, and a previous
fallback entry exists. -/
def wInstAll : InstallWorld :=
  ⟨true, true, true, true, true, true, true, "5.15.16-gentoo", true, true,
   true, true, true⟩

/-- Nonempty all-digit character strings — the `X`, `Y`, `Z`, `N` pieces
of a well-formed `linux-X.Y.Z-gentoo[-rN]` directory name. -/
def digitStrB (l : List Char) : Bool := !l.isEmpty && l.all isDigitC

/-- Render a well-formed source directory name from its pieces. -/
def mkName (a b c : List Char) (r : Option (List Char)) : String :=
  ⟨"linux-".data ++ (a ++ '.' :: (b ++ '.' :: (c ++ ("-gentoo".data ++
    (match r with
     | none => []
     | some d => '-' :: 'r' :: d)))))⟩

/-- The release triple denoted by three digit strings. -/
def relOf (a b c : List Char) : List Nat := [digitsVal a, digitsVal b, digitsVal c]

/-- The pure retain/remove partition of a clean report (everything except
the performed actions). -/
def cleanPartition (r : CleanReport) :
    List Kernel × List String × List String × List String :=
  (r.keptKernels, r.rmSources, r.rmModules, r.rmImages)

/-- The descending kernel list of `fsA`. -/
def ksA : List Kernel :=
  [⟨"linux-5.15.5-gentoo", ⟨[5, 15, 5], none⟩⟩,
   ⟨"linux-5.15.4-gentoo", ⟨[5, 15, 4], none⟩⟩,
   ⟨"linux-5.15.3-gentoo", ⟨[5, 15, 3], none⟩⟩,
   ⟨"linux-5.15.2-gentoo", ⟨[5, 15, 2], none⟩⟩,
   ⟨"linux-5.15.1-gentoo", ⟨[5, 15, 1], none⟩⟩]

/-- The non-dry report of `clean fsA none 1 false`. -/
def reportAwet : CleanReport :=
  ⟨[⟨"linux-5.15.5-gentoo", ⟨[5, 15, 5], none⟩⟩],
   ["linux-5.15.4-gentoo", "linux-5.15.3-gentoo", "linux-5.15.2-gentoo",
    "linux-5.15.1-gentoo"],
   ["5.15.4-gentoo", "5.15.3-gentoo"],
   ["gentoo-5.15.4.efi", "gentoo-5.15.3.efi"],
   [Action.emergeDepclean,
    Action.deleteSource "linux-5.15.4-gentoo",
    Action.deleteSource "linux-5.15.3-gentoo",
    Action.deleteSource "linux-5.15.2-gentoo",
    Action.deleteSource "linux-5.15.1-gentoo",
    Action.deleteModules "5.15.4-gentoo",
    Action.deleteModules "5.15.3-gentoo",
    Action.deleteImage "gentoo-5.15.4.efi",
    Action.deleteImage "gentoo-5.15.3.efi"]⟩

end Ekernel

namespace Ekernel

/-! # Theorems

General lemmas about the embedded operations, followed by one theorem per
spec claim (with a counterexample and a witness where applicable). -/

/-- The enumeration generator fails whenever any listed directory fails
to construct. -/
theorem kernelsOf_err (fs : FS) :
    ∀ (l : List String) (d : String), d ∈ l →
      isOkB (kernelInit fs d) = false → isOkB (kernelsOf fs l) = false := by
  intro l
  induction l with
  | nil => intro d hd; cases hd
  | cons x xs ih =>
    intro d hd hbad
    cases hx : kernelInit fs x with
    | error e => simp [kernelsOf, hx, isOkB]
    | ok k =>
      cases hd with
      | head => rw [hx] at hbad; simp [isOkB] at hbad
      | tail _ hmem =>
        have hxs := ih d hmem hbad
        cases hk : kernelsOf fs xs with
        | error e => simp [kernelsOf, hx, hk, isOkB]
        | ok ks => rw [hk] at hxs; simp [isOkB] at hxs

/-- The retention loop keeps exactly the first `n` bootable kernels of
the walked list, in order, skipping (and removing) the non-bootable ones;
no kernel is exempted from the walk. -/
theorem keepWalk_eq_take (fs : FS) :
    ∀ (ks : List Kernel) (n : Nat),
      keepWalk fs ks n = (ks.filter (fun k => bootable fs k)).take n := by
  intro ks
  induction ks with
  | nil => intro n; simp [keepWalk]
  | cons k ks ih =>
    intro n
    cases hb : bootable fs k with
    | true =>
      cases n with
      | zero => simp [keepWalk, hb, ih]
      | succ m => simp [keepWalk, hb, ih]
    | false => simp [keepWalk, hb, ih]

/-- C2 counterexample: invoked with `keepCount = 0` the reconciler does
not retain only the current generation — it refuses to run at all,
raising `ValueError`. -/
theorem C2_counterexample :
    clean fsA none 0 false =
      .error (.valueError "error: at least one bootable kernel must be kept") := by
  decide

/-- C2 (amended): `clean` rejects every keep count below 1 with
`ValueError("error: at least one bootable kernel must be kept")`; a keep
count of 0 is never accepted, so the running generation's artifacts can
only be removed once it falls outside the newest `keep` bootable
generations. -/
theorem C2_amended :
    ∀ (fs : FS) (bkp : Option Fallback) (keep : Int) (dry : Bool),
      keep < 1 →
      clean fs bkp keep dry =
        .error (.valueError "error: at least one bootable kernel must be kept") := by
  intro fs bkp keep dry h
  simp [clean, h]

/-- Witness for `C2_amended` at `keep = 0`. -/
theorem C2_witness :
    clean fsB none 0 true =
      .error (.valueError "error: at least one bootable kernel must be kept") :=
  C2_amended fsB none 0 true (by decide)

/-- C4 counterexample: the standalone parse on a patternless string fails
with `AttributeError` — a generic error, not any dedicated parse-error
value (`ValueError` is the only dedicated kind the module raises). -/
theorem C4_counterexample :
    version "foo" = .error .attrError ∧
    ∀ msg : String, PyErr.attrError ≠ PyErr.valueError msg := by
  exact ⟨by decide, fun msg h => PyErr.noConfusion h⟩

/-- C4 (amended): `Kernel` construction from an existing directory whose
name has no parsable version does fail with the dedicated
`ValueError("error: illegal source …")`, but the standalone `version`
parse fails with a generic `AttributeError` whenever the regex search
finds nothing. -/
theorem C4_amended :
    (∀ s : String, reSearch s.data = none → version s = .error .attrError) ∧
    (∀ (fs : FS) (name : String) (e : PyErr), name ∈ fs.srcDirs →
      version name = .error e →
      kernelInit fs name = .error (.valueError ("error: illegal source " ++ name))) := by
  constructor
  · intro s h
    simp [version, h]
  · intro fs name e hmem hv
    simp [kernelInit, hmem, hv]

/-- Witness for `C4_amended` at `"foo"` and the directory `linux-foo`. -/
theorem C4_witness :
    version "foo" = .error .attrError ∧
    kernelInit fsBad "linux-foo" =
      .error (.valueError ("error: illegal source " ++ "linux-foo")) := by
  constructor
  · exact C4_amended.1 "foo" (by decide)
  · exact C4_amended.2 fsBad "linux-foo" .attrError (by decide) (by decide)

/-- C5 counterexample: on the spec's own dump — whose entry line carries
no `File(` token — the parser does not produce a current entry at all; it
raises the missing-boot-image `RuntimeError`. -/
theorem C5_counterexample :
    efiParse dumpSpec =
      .error (.runtimeError ("error: missing boot image:\n" ++ specEntryLine)) := by
  decide

/-- C5 (amended): with the loader path wrapped in `File(…)` the parser
yields label `"Gentoo"` and loader path `"EFI/Gentoo/bootx64.efi"`
(backslashes normalized, id sliced from positions 13–17 of the
`BootCurrent` line); on the line without `File(` it fails with the
missing-boot-image `RuntimeError`. -/
theorem C5_corrected :
    efiParse dumpFile =
      .ok ⟨some "Gentoo", some "EFI/Gentoo/bootx64.efi",
        some "Gentoo (fallback)", none, none⟩ ∧
    efiParse dumpSpec =
      .error (.runtimeError ("error: missing boot image:\n" ++ specEntryLine)) := by
  exact ⟨by decide, by decide⟩

/-- C6 counterexample: when no entry's id equals the parsed `BootCurrent`
value the workflow fails with a generic `KeyError("label")` raised by the
fallback search, not a dedicated lookup error — and on a fully empty dump
it does not fail at all. -/
theorem C6_counterexample :
    efiParse dumpNoCur = .error (.keyError "label") ∧
    efiParse ([] : List String) = .ok ⟨none, none, none, none, none⟩ := by
  exact ⟨by decide, by decide⟩

/-- C6 (amended): when no line starts with `Boot<BootCurrent>` the parse
of a nonempty dump fails with the generic `KeyError("label")` (there is
no dedicated NotFound error, and an empty dump does not fail in the
entry lookup itself — the decorator can still fail later when the mount
phase needs the never-assigned loader path); a missing fallback entry,
by contrast, is a normal non-error state, the fallback fields simply
staying unset, and a present one fills them. -/
theorem C6_corrected :
    (∀ lines : List String, lines ≠ [] →
      lines.find? (fun l => startsWithS l ("Boot" ++ bootCurrentNum lines)) = none →
      efiParse lines = .error (.keyError "label")) ∧
    efiParse ([] : List String) = .ok ⟨none, none, none, none, none⟩ ∧
    efiParse dumpFile =
      .ok ⟨some "Gentoo", some "EFI/Gentoo/bootx64.efi",
        some "Gentoo (fallback)", none, none⟩ ∧
    efiParse dumpWithFb =
      .ok ⟨some "Gentoo", some "EFI/Gentoo/bootx64.efi",
        some "Gentoo (fallback)", some "0003",
        some "EFI/Gentoo/gentoo-5.15.3.efi"⟩ := by
  refine ⟨?_, by decide, by decide, by decide⟩
  intro lines hne hfind
  simp only [efiParse]
  rw [hfind]
  simp only [efiFallbackScan]
  cases lines with
  | nil => exact absurd rfl hne
  | cons a t => rfl

/-- Witness for `C6_corrected` on a dump whose `BootCurrent` matches no
entry. -/
theorem C6_witness : efiParse dumpNoCur = .error (.keyError "label") :=
  C6_corrected.1 dumpNoCur (by decide) (by decide)

/-- C9: dry-run `clean` computes exactly the retain/remove partition of
the non-dry run while performing no mutation whatsoever — no deletion, no
package-manager cleanup, no firmware entry removal. -/
theorem C9_confirmed :
    (∀ (fs : FS) (bkp : Option Fallback) (keep : Int),
      (clean fs bkp keep true).map cleanPartition =
        (clean fs bkp keep false).map cleanPartition) ∧
    (∀ (fs : FS) (bkp : Option Fallback) (keep : Int) (r : CleanReport),
      clean fs bkp keep true = .ok r → r.actions = []) := by
  constructor
  · intro fs bkp keep
    by_cases hk : keep < 1
    · simp [clean, hk]
    · cases hks : kernelList fs with
      | error e => simp [clean, hk, hks]
      | ok ks => simp [clean, hk, hks, cleanPartition, Except.map]
  · intro fs bkp keep r h
    by_cases hk : keep < 1
    · unfold clean at h
      rw [if_pos hk] at h
      cases h
    · unfold clean at h
      rw [if_neg hk] at h
      cases hks : kernelList fs with
      | error e => rw [hks] at h; cases h
      | ok ks =>
        rw [hks] at h
        cases h
        rfl

/-- Witness for `C9_confirmed` on the five-generation scenario. -/
theorem C9_witness :
    (clean fsA none 1 true).map cleanPartition =
      (clean fsA none 1 false).map cleanPartition ∧
    reportAdry.actions = [] := by
  constructor
  · exact C9_confirmed.1 fsA none 1
  · exact C9_confirmed.2 fsA none 1 reportAdry (by decide)

/-- C10: a single unparsable `linux-*` directory name makes the whole
enumeration fail — `Kernel.list` raises instead of skipping the entry —
and with it every operation that relies on it: the latest-kernel default
(`configure`/`build`/`install`'s `-s` default evaluates `Kernel.latest`)
and the clean workflow. -/
theorem C10_confirmed :
    ∀ (fs : FS) (d : String), d ∈ fs.srcDirs → startsWithS d "linux-" = true →
      isErr (version d) →
      isErr (kernelList fs) ∧ isErr (kernelLatest fs) ∧
      ∀ (bkp : Option Fallback) (keep : Int) (dry : Bool),
        isErr (clean fs bkp keep dry) := by
  intro fs d hmem hpre hbad
  have hinit : isOkB (kernelInit fs d) = false := by
    unfold kernelInit
    rw [if_pos hmem]
    cases hv : version d with
    | error e => rfl
    | ok v => rw [hv] at hbad; simp [isErr, isOkB] at hbad
  have hglob : d ∈ globLinux fs := by
    unfold globLinux
    exact List.mem_filter.mpr ⟨hmem, hpre⟩
  have hof := kernelsOf_err fs (globLinux fs) d hglob hinit
  have hlist : isOkB (kernelList fs) = false := by
    unfold kernelList
    cases hks : kernelsOf fs (globLinux fs) with
    | error e => rfl
    | ok ks => rw [hks] at hof; simp [isOkB] at hof
  refine ⟨hlist, ?_, ?_⟩
  · unfold kernelLatest
    cases hks : kernelList fs with
    | error e => exact rfl
    | ok ks => rw [hks] at hlist; simp [isOkB] at hlist
  · intro bkp keep dry
    unfold clean
    by_cases hk : keep < 1
    · rw [if_pos hk]; exact rfl
    · rw [if_neg hk]
      cases hks : kernelList fs with
      | error e => exact rfl
      | ok ks => rw [hks] at hlist; simp [isOkB] at hlist

/-- Witness for `C10_confirmed` on a root holding only `linux-foo`. -/
theorem C10_witness :
    isErr (kernelList fsBad) ∧ isErr (kernelLatest fsBad) ∧
    isErr (clean fsBad none 2 false) := by
  have h := C10_confirmed fsBad "linux-foo" (by decide) (by decide) (by decide)
  exact ⟨h.1, h.2.1, h.2.2 none 2 false⟩

/-- C1 counterexample: the reconciler does not exempt the current
generation from the walk.  In the five-generation scenario (positions
0–2 complete, position 0 both newest and current) `keep = 1` retains only
position 0 — the claim expects `{0, 1}` — and removes `5.15.4`; in the
version scenario with `keep = 2` it retains `{5.15.16, 5.15.3}` — not
`5.15.2` — and removes `5.15.23`, which the claim says stays untouched. -/
theorem C1_counterexample :
    (clean fsA none 1 false).map cleanPartition =
      .ok ([⟨"linux-5.15.5-gentoo", ⟨[5, 15, 5], none⟩⟩],
        ["linux-5.15.4-gentoo", "linux-5.15.3-gentoo", "linux-5.15.2-gentoo",
         "linux-5.15.1-gentoo"],
        ["5.15.4-gentoo", "5.15.3-gentoo"],
        ["gentoo-5.15.4.efi", "gentoo-5.15.3.efi"]) ∧
    (clean fsB none 2 false).map cleanPartition =
      .ok ([⟨"linux-5.15.16-gentoo", ⟨[5, 15, 16], none⟩⟩,
            ⟨"linux-5.15.3-gentoo", ⟨[5, 15, 3], none⟩⟩],
        ["linux-5.15.23-gentoo", "linux-5.15.2-gentoo", "linux-5.15.1-gentoo-r1"],
        ["5.15.2-gentoo", "5.15.1-gentoo"],
        ["gentoo-5.15.2.efi", "gentoo-5.15.1.efi"]) := by
  exact ⟨by decide, by decide⟩

/-- C1 (amended): the reconciler walks the whole descending generation
list — the current generation is not excluded, consumes a keep slot when
complete, and generations newer than a retained one enjoy no protection:
the retained set is exactly the first `keep` complete generations in
descending-version order, and each removal list holds every matching
directory entry not belonging to a retained generation.  Concretely, the
five-generation scenario with `keep = 1` retains position 0 and removes
positions 1–4, and the version scenario with `keep = 2` retains
`{5.15.16, 5.15.3}` and removes `{5.15.23, 5.15.2, 5.15.1-r1}`. -/
theorem C1_amended :
    (∀ (fs : FS) (bkp : Option Fallback) (keep : Int) (dry : Bool)
        (ks : List Kernel) (r : CleanReport),
      kernelList fs = .ok ks → clean fs bkp keep dry = .ok r →
      r.keptKernels = (ks.filter (fun k => bootable fs k)).take keep.toNat ∧
      r.rmSources = (globLinux fs).filter
        (fun d => !memS d (r.keptKernels.map Kernel.srcName)) ∧
      r.rmModules = (fs.moduleDirs.filter (fun d => endsWithS d "-gentoo")).filter
        (fun d => !memS d (r.keptKernels.map Kernel.modulesName)) ∧
      r.rmImages = (fs.espFiles.filter (fun f => startsWithS f "gentoo-")).filter
        (fun f => !memS f (r.keptKernels.map Kernel.bkpName))) ∧
    (clean fsA none 1 false).map cleanPartition =
      .ok ([⟨"linux-5.15.5-gentoo", ⟨[5, 15, 5], none⟩⟩],
        ["linux-5.15.4-gentoo", "linux-5.15.3-gentoo", "linux-5.15.2-gentoo",
         "linux-5.15.1-gentoo"],
        ["5.15.4-gentoo", "5.15.3-gentoo"],
        ["gentoo-5.15.4.efi", "gentoo-5.15.3.efi"]) ∧
    (clean fsB none 2 false).map cleanPartition =
      .ok ([⟨"linux-5.15.16-gentoo", ⟨[5, 15, 16], none⟩⟩,
            ⟨"linux-5.15.3-gentoo", ⟨[5, 15, 3], none⟩⟩],
        ["linux-5.15.23-gentoo", "linux-5.15.2-gentoo", "linux-5.15.1-gentoo-r1"],
        ["5.15.2-gentoo", "5.15.1-gentoo"],
        ["gentoo-5.15.2.efi", "gentoo-5.15.1.efi"]) := by
  refine ⟨?_, by decide, by decide⟩
  intro fs bkp keep dry ks r hks hcl
  unfold clean at hcl
  by_cases hk : keep < 1
  · rw [if_pos hk] at hcl; cases hcl
  · rw [if_neg hk, hks] at hcl
    cases hcl
    exact ⟨keepWalk_eq_take fs ks keep.toNat, rfl, rfl, rfl⟩

/-- Witness for `C1_amended` on the five-generation scenario. -/
theorem C1_witness :
    reportAwet.keptKernels =
      (ksA.filter (fun k => bootable fsA k)).take (Int.toNat 1) ∧
    reportAwet.rmSources = (globLinux fsA).filter
      (fun d => !memS d (reportAwet.keptKernels.map Kernel.srcName)) := by
  have h := C1_amended.1 fsA none 1 false ksA reportAwet (by decide) (by decide)
  exact ⟨h.1, h.2.1⟩

/-- The mount phase on a dump with no current-entry line: with the image
not visible and a mountpoint configured, the activation raises
`UnboundLocalError("img")` before any mount subprocess and leaves the
re-entrancy guard set, exactly as `ekernel.py` line 182 does. -/
theorem efiWrap_noCurrentEntry (body : MSt → MSt × Except PyErr Unit)
    (acts : List MAct) :
    efiWrap ⟨[], false, true, .ok, true⟩ body ⟨false, acts⟩ =
      (⟨true, acts ++ [MAct.bootmgr]⟩, .error (.unboundLocal "img")) := rfl

/-- C7: with the boot image not yet visible, a configured mountpoint and
firmware output from which the parser extracts the current entry's
loader path, two nested mount-scoped invocations perform exactly one
physical mount and — on success — exactly one unmount, on every exit
path, whichever body raises (the inner invocation is neutralized by the
re-entrancy guard); and when the mount tool reports "already mounted"
the invocation proceeds as a success but performs zero unmount calls. -/
theorem C7_confirmed :
    ∀ (w : EfiWorld) (innerOut afterOut : Except PyErr Unit),
      hasLoaderB (efiParse w.lines) = true → w.imgExists = false →
      w.fstabHasEsp = true → w.imgExistsAfterMount = true →
      (w.mountRes = .ok →
        (nestedEfi w innerOut afterOut).1 =
          ⟨false, [.bootmgr, .mountEsp, .umountEsp]⟩) ∧
      (w.mountRes = .alreadyMounted →
        (nestedEfi w innerOut afterOut).1 = ⟨false, [.bootmgr, .mountEsp]⟩ ∧
        (nestedEfi w innerOut afterOut).2 =
          (match innerOut with
           | .ok _ => afterOut
           | .error e => .error e)) := by
  intro w innerOut afterOut hp himg hfstab hafter
  obtain ⟨lines, imgE, fstab, mres, aft⟩ := w
  simp only at himg hfstab hafter hp
  subst himg hfstab hafter
  cases hep : efiParse lines with
  | error e => rw [hep] at hp; simp [hasLoaderB] at hp
  | ok info =>
    cases himg2 : info.img with
    | none => rw [hep] at hp; simp [hasLoaderB, himg2] at hp
    | some loaderPath =>
      constructor
      · intro hm; subst hm
        cases innerOut <;> cases afterOut <;> simp [nestedEfi, efiWrap, hep, himg2]
      · intro hm; subst hm
        cases innerOut <;> cases afterOut <;> simp [nestedEfi, efiWrap, hep, himg2]

/-- Witness for `C7_confirmed`: successful mount with the inner body
raising, and the already-mounted recovery. -/
theorem C7_witness :
    (nestedEfi wEfiGood (.error (.valueError "inner boom")) (.ok ())).1 =
      ⟨false, [.bootmgr, .mountEsp, .umountEsp]⟩ ∧
    (nestedEfi wEfiAlready (.ok ()) (.ok ())).1 =
      ⟨false, [.bootmgr, .mountEsp]⟩ := by
  constructor
  · exact (C7_confirmed wEfiGood (.error (.valueError "inner boom")) (.ok ())
      (by decide) (by decide) (by decide) (by decide)).1 (by decide)
  · exact ((C7_confirmed wEfiAlready (.ok ()) (.ok ())
      (by decide) (by decide) (by decide) (by decide)).2 (by decide)).1

/-- The attempted steps of a run are always a prefix of the full step
sequence (a failure performs no later step). -/
theorem runSteps_fst_prefix :
    ∀ es : List (Option IStep × Except PyErr Unit),
      (runSteps es).1 <+: es.filterMap (fun e => e.1) := by
  intro es
  induction es with
  | nil => simp [runSteps]
  | cons e rest ih =>
    obtain ⟨a, r0⟩ := e
    have hfm : ((a, r0) :: rest).filterMap (fun e => e.1) =
        a.toList ++ rest.filterMap (fun e => e.1) := by
      cases a <;> simp [List.filterMap_cons]
    cases r0 with
    | ok u =>
      obtain ⟨t, ht⟩ := ih
      exact ⟨t, by simp [runSteps, hfm, List.append_assoc, ht]⟩
    | error e' =>
      exact ⟨rest.filterMap (fun e => e.1), by simp [runSteps, hfm]⟩

/-- A run that succeeds performed every step. -/
theorem runSteps_ok_eq :
    ∀ es : List (Option IStep × Except PyErr Unit),
      (runSteps es).2 = .ok () →
      (runSteps es).1 = es.filterMap (fun e => e.1) := by
  intro es
  induction es with
  | nil => intro _; simp [runSteps]
  | cons e rest ih =>
    obtain ⟨a, r0⟩ := e
    have hfm : ((a, r0) :: rest).filterMap (fun e => e.1) =
        a.toList ++ rest.filterMap (fun e => e.1) := by
      cases a <;> simp [List.filterMap_cons]
    cases r0 with
    | ok u =>
      intro h
      rw [hfm]
      simp only [runSteps] at h ⊢
      rw [ih h]
    | error e' =>
      intro h
      simp [runSteps] at h

/-- C8 counterexample: in a run where everything succeeds and a fallback
entry is requested, the symlink update comes first — before either image
copy — and the fallback firmware reconciliation comes last, after the
module rebuild; the claim's order (copies, then symlink, then fallback,
then rebuild) does not occur. -/
theorem C8_counterexample :
    install wInstAll true =
      ([.eselectSymlink, .copyBootImage, .copyBackupImage, .modulesInstall,
        .moduleRebuild, .findmnt, .deleteOldEntry, .createFallbackEntry],
       .ok ()) ∧
    (install wInstAll true).1.indexOf IStep.eselectSymlink <
      (install wInstAll true).1.indexOf IStep.copyBootImage ∧
    (install wInstAll true).1.indexOf IStep.moduleRebuild <
      (install wInstAll true).1.indexOf IStep.createFallbackEntry := by
  exact ⟨by decide, by decide, by decide⟩

/-- C8 (amended): `install` fails with the missing-artifact
`FileNotFoundError` before any state when the compiled image is absent;
otherwise its states run in the order symlink update, boot-image copy,
backup copy, module install, module rebuild, then (only when a fallback
entry is requested) the fallback reconciliation — and a failure in any
state aborts all remaining states, the performed steps always forming a
prefix of that sequence. -/
theorem C8_amended :
    (∀ (w : InstallWorld) (b : Bool), w.bzImageExists = false →
      install w b = ([], .error (.fileNotFound "error: missing bzImage"))) ∧
    (∀ (w : InstallWorld) (b : Bool), (install w b).1 <+: fullSteps w b) ∧
    (∀ (w : InstallWorld) (b : Bool), (install w b).2 = .ok () →
      (install w b).1 = fullSteps w b) ∧
    (∀ (w : InstallWorld) (b : Bool),
      fullSteps w b =
        [.eselectSymlink, .copyBootImage, .copyBackupImage, .modulesInstall,
         .moduleRebuild] ++
        (if b then
          (if w.contentMatch then [] else [.copySynthBackup]) ++ [.findmnt] ++
          (if w.prevEntry then [.deleteOldEntry] else []) ++
          [.createFallbackEntry]
         else [])) := by
  refine ⟨?_, ?_, ?_, ?_⟩
  · intro w b h
    simp [install, h]
  · intro w b
    cases hbz : w.bzImageExists with
    | false => simp [install, hbz, List.nil_prefix]
    | true =>
      simp only [install, hbz, Bool.not_true, Bool.false_eq_true, if_false]
      exact runSteps_fst_prefix (installEntries w b)
  · intro w b h
    cases hbz : w.bzImageExists with
    | false => simp [install, hbz] at h
    | true =>
      simp only [install, hbz, Bool.not_true, Bool.false_eq_true, if_false] at h ⊢
      exact runSteps_ok_eq (installEntries w b) h
  · intro w b
    cases b with
    | false => simp [fullSteps, installEntries]
    | true =>
      by_cases hc : w.contentMatch = true <;> by_cases hpv : w.prevEntry = true <;>
        simp [fullSteps, installEntries, hc, hpv, List.filterMap_append,
          List.filterMap_cons]

/-- Witness for `C8_amended`: the missing-image failure and the complete
all-success step sequence. -/
theorem C8_witness :
    install { wInstAll with bzImageExists := false } true =
      ([], .error (.fileNotFound "error: missing bzImage")) ∧
    (install wInstAll true).1 = fullSteps wInstAll true := by
  constructor
  · exact C8_amended.1 { wInstAll with bzImageExists := false } true (by decide)
  · exact C8_amended.2.2.1 wInstAll true (by decide)

/-- A digit character is a word character. -/
theorem digit_isWord (ch : Char) (h : isDigitC ch = true) : isWordC ch = true := by
  simp only [isDigitC] at h
  simp [isWordC, Char.isAlphanum, h]

/-- A digit character is not alphabetic. -/
theorem digit_not_alpha (ch : Char) (h : isDigitC ch = true) : isAlphaC ch = false := by
  simp only [isDigitC, Char.isDigit, Bool.and_eq_true, decide_eq_true_eq] at h
  obtain ⟨h1, h2⟩ := h
  simp only [isAlphaC, Char.isAlpha, Char.isUpper, Char.isLower,
    Bool.or_eq_false_iff, Bool.and_eq_false_iff]
  constructor
  · left
    simp only [decide_eq_false_iff_not]
    intro h3
    exact absurd (UInt32.le_trans h3 h2) (by decide)
  · left
    simp only [decide_eq_false_iff_not]
    intro h3
    exact absurd (UInt32.le_trans h3 h2) (by decide)

/-- Digit characters differ from every non-digit character. -/
theorem digit_ne (ch c : Char) (h : isDigitC ch = true) (hc : isDigitC c = false) :
    ch ≠ c := fun he => by rw [he, hc] at h; cases h

/-- `takeWhile`/`dropWhile` on a list all of whose elements satisfy the
predicate. -/
theorem takeWhile_all (p : Char → Bool) :
    ∀ a : List Char, (∀ ch ∈ a, p ch = true) →
      a.takeWhile p = a ∧ a.dropWhile p = [] := by
  intro a
  induction a with
  | nil => intro _; exact ⟨rfl, rfl⟩
  | cons x xs ih =>
    intro h
    have hx : p x = true := h x (List.mem_cons_self x xs)
    have hxs := ih (fun ch hm => h ch (List.mem_cons_of_mem x hm))
    constructor
    · simp [List.takeWhile_cons, hx, hxs.1]
    · simp [List.dropWhile_cons, hx, hxs.2]

/-- `takeWhile`/`dropWhile` on a satisfying block followed by a stopper. -/
theorem takeWhile_append_stop (p : Char → Bool) :
    ∀ (a : List Char) (y : Char) (t : List Char),
      (∀ ch ∈ a, p ch = true) → p y = false →
      (a ++ y :: t).takeWhile p = a ∧ (a ++ y :: t).dropWhile p = y :: t := by
  intro a
  induction a with
  | nil =>
    intro y t _ hy
    constructor
    · simp [List.takeWhile_cons, hy]
    · simp [List.dropWhile_cons, hy]
  | cons x xs ih =>
    intro y t h hy
    have hx : p x = true := h x (List.mem_cons_self x xs)
    have hxs := ih y t (fun ch hm => h ch (List.mem_cons_of_mem x hm)) hy
    constructor
    · simp [List.takeWhile_cons, hx, hxs.1]
    · simp [List.dropWhile_cons, hx, hxs.2]

/-- `firstSome` returns the first successful alternative. -/
theorem firstSome_cons_some {α β : Type} (x : α) (xs : List α) (f : α → Option β)
    (v : β) (h : f x = some v) : firstSome (x :: xs) f = some v := by
  simp [firstSome, h]

/-- `firstSome` skips a failing alternative. -/
theorem firstSome_cons_none {α β : Type} (x : α) (xs : List α) (f : α → Option β)
    (h : f x = none) : firstSome (x :: xs) f = firstSome xs f := by
  simp [firstSome, h]

/-- The greedy candidate list starts with the maximal split. -/
theorem plusSplits_head (p : Char → Bool) (l : List Char)
    (h : l.takeWhile p ≠ []) :
    ∃ tail, plusSplits p l = (l.takeWhile p, l.dropWhile p) :: tail := by
  unfold plusSplits
  cases hn : (l.takeWhile p).length with
  | zero => exact absurd (List.length_eq_zero.mp hn) h
  | succ m =>
    show ∃ tail,
      (List.range (m + 1)).map (fun i => (l.take (m + 1 - i), l.drop (m + 1 - i))) =
        (l.takeWhile p, l.dropWhile p) :: tail
    have hpre : l.takeWhile p <+: l := List.takeWhile_prefix p
    have ht : l.take (m + 1) = l.takeWhile p := by
      have h2 := List.prefix_iff_eq_take.mp hpre
      rw [hn] at h2
      exact h2.symm
    have hd : l.drop (m + 1) = l.dropWhile p := by
      conv_lhs => rw [← List.takeWhile_append_dropWhile (p := p) (l := l)]
      exact List.drop_left' (by rw [hn])
    rw [List.range_succ_eq_map, List.map_cons, Nat.sub_zero, ht, hd]
    exact ⟨_, rfl⟩

/-- The greedy candidate list's first two splits, when at least two
characters satisfy the predicate. -/
theorem plusSplits_head2 (p : Char → Bool) (l : List Char) (m : Nat)
    (h : (l.takeWhile p).length = m + 2) :
    ∃ tail, plusSplits p l =
      (l.take (m + 2), l.drop (m + 2)) :: (l.take (m + 1), l.drop (m + 1)) :: tail := by
  unfold plusSplits
  rw [h]
  show ∃ tail,
    (List.range (m + 2)).map (fun i => (l.take (m + 2 - i), l.drop (m + 2 - i))) =
      (l.take (m + 2), l.drop (m + 2)) :: (l.take (m + 1), l.drop (m + 1)) :: tail
  rw [List.range_succ_eq_map, List.range_succ_eq_map, List.map_cons,
    List.map_cons]
  exact ⟨_, rfl⟩

/-- The optional revision group captures the whole `-r<digits>` suffix:
the greedy `\\w+` backtracks one character so that `\\d+` can take the
final digit, and the captured text is the full suffix either way. -/
theorem matchOpt2_rev (d : List Char) (hne : d ≠ [])
    (hd : ∀ ch ∈ d, isDigitC ch = true) :
    matchOpt2 ('-' :: 'r' :: d) = some ('-' :: 'r' :: d) := by
  obtain ⟨d', c, rfl⟩ := List.eq_nil_or_concat d |>.resolve_left hne
  simp only [List.concat_eq_append] at hd ⊢
  have hword : ∀ ch ∈ 'r' :: (d' ++ [c]), isWordC ch = true := by
    intro ch hm
    cases hm with
    | head => decide
    | tail _ hm2 => exact digit_isWord ch (hd ch hm2)
  have htw := takeWhile_all isWordC ('r' :: (d' ++ [c])) hword
  have hlen : (('r' :: (d' ++ [c])).takeWhile isWordC).length = d'.length + 2 := by
    rw [htw.1]; simp
  obtain ⟨tail, hps⟩ := plusSplits_head2 isWordC ('r' :: (d' ++ [c])) d'.length hlen
  have htake2 : ('r' :: (d' ++ [c])).take (d'.length + 2) = 'r' :: (d' ++ [c]) := by
    apply List.take_of_length_le
    simp
  have hdrop2 : ('r' :: (d' ++ [c])).drop (d'.length + 2) = [] := by
    apply List.drop_eq_nil_of_le
    simp
  have htake1 : ('r' :: (d' ++ [c])).take (d'.length + 1) = 'r' :: d' := by
    have : 'r' :: (d' ++ [c]) = ('r' :: d') ++ [c] := by simp
    rw [this]
    have hl : ('r' :: d').length = d'.length + 1 := by simp
    rw [← hl, List.take_left]
  have hdrop1 : ('r' :: (d' ++ [c])).drop (d'.length + 1) = [c] := by
    have : 'r' :: (d' ++ [c]) = ('r' :: d') ++ [c] := by simp
    rw [this]
    have hl : ('r' :: d').length = d'.length + 1 := by simp
    rw [← hl, List.drop_left]
  have hcd : isDigitC c = true := hd c (by simp)
  show firstSome (plusSplits isWordC ('r' :: (d' ++ [c])))
      (fun p =>
        let d := p.2.takeWhile isDigitC
        if d = [] then none else some ('-' :: (p.1 ++ d))) =
    some ('-' :: 'r' :: (d' ++ [c]))
  rw [hps, htake2, hdrop2, htake1, hdrop1]
  rw [firstSome_cons_none _ _ _ rfl]
  apply firstSome_cons_some
  simp [List.takeWhile_cons, hcd]

/-- A list prefixes itself extended. -/
theorem isPrefixOf_append_self : ∀ (l t : List Char), l.isPrefixOf (l ++ t) = true := by
  intro l t
  induction l with
  | nil => cases t <;> rfl
  | cons x xs ih => simp [List.isPrefixOf, ih]

/-- The matcher succeeds at the head of a well-formed name body,
capturing the dotted triple and handing the remainder to the optional
group. -/
theorem matchAt_name (a b c tail : List Char)
    (ha : a ≠ []) (had : ∀ ch ∈ a, isDigitC ch = true)
    (hb : b ≠ []) (hbd : ∀ ch ∈ b, isDigitC ch = true)
    (hc : c ≠ []) (hcd : ∀ ch ∈ c, isDigitC ch = true) :
    matchAt (a ++ '.' :: (b ++ '.' :: (c ++ ("-gentoo".data ++ tail)))) =
      some (a ++ '.' :: (b ++ '.' :: c), matchOpt2 tail) := by
  have h1 := takeWhile_append_stop isDigitC a '.'
    (b ++ '.' :: (c ++ ("-gentoo".data ++ tail))) had (by decide)
  obtain ⟨t1, hp1⟩ := plusSplits_head isDigitC _ (by rw [h1.1]; exact ha)
  unfold matchAt
  rw [hp1, h1.1, h1.2]
  apply firstSome_cons_some
  show firstSome
      (plusSplits isDigitC (b ++ '.' :: (c ++ ("-gentoo".data ++ tail)))) _ = _
  have h2 := takeWhile_append_stop isDigitC b '.'
    (c ++ ("-gentoo".data ++ tail)) hbd (by decide)
  obtain ⟨t2, hp2⟩ := plusSplits_head isDigitC _ (by rw [h2.1]; exact hb)
  rw [hp2, h2.1, h2.2]
  apply firstSome_cons_some
  show firstSome (plusSplits isDigitC (c ++ ("-gentoo".data ++ tail))) _ = _
  have hsplit : c ++ ("-gentoo".data ++ tail) = c ++ '-' :: ("gentoo".data ++ tail) := rfl
  rw [hsplit]
  have h3 := takeWhile_append_stop isDigitC c '-' ("gentoo".data ++ tail) hcd (by decide)
  obtain ⟨t3, hp3⟩ := plusSplits_head isDigitC _ (by rw [h3.1]; exact hc)
  rw [hp3, h3.1, h3.2]
  apply firstSome_cons_some
  show (if gentooLit.isPrefixOf ('-' :: ("gentoo".data ++ tail)) = true then
      some (a ++ '.' :: (b ++ '.' :: c),
        matchOpt2 (('-' :: ("gentoo".data ++ tail)).drop 7))
    else none) = some (a ++ '.' :: (b ++ '.' :: c), matchOpt2 tail)
  have heq : ('-' :: ("gentoo".data ++ tail)) = gentooLit ++ tail := rfl
  rw [heq, if_pos (isPrefixOf_append_self gentooLit tail),
    List.drop_left' (by rfl : gentooLit.length = 7)]

/-- The matcher fails at a non-digit start position. -/
theorem matchAt_nondigit (x : Char) (l : List Char) (hx : isDigitC x = false) :
    matchAt (x :: l) = none := by
  unfold matchAt plusSplits
  simp [List.takeWhile_cons, hx, firstSome]

/-- The scan skips a non-digit character. -/
theorem reSearch_cons_nondigit (x : Char) (l : List Char)
    (hx : isDigitC x = false) : reSearch (x :: l) = reSearch l := by
  show (match matchAt (x :: l) with
        | some m => some m
        | none => reSearch l) = reSearch l
  rw [matchAt_nondigit x l hx]

/-- The scan stops at a position where the matcher succeeds. -/
theorem reSearch_of_matchAt (l : List Char) (m : List Char × Option (List Char))
    (h : matchAt l = some m) : reSearch l = some m := by
  cases l with
  | nil => rw [show matchAt ([] : List Char) = none from rfl] at h; cases h
  | cons x r =>
    unfold reSearch
    rw [h]

/-- The release scanner consumes a digit block into the accumulator. -/
theorem parseReleaseGo_digits :
    ∀ (d : List Char) (cur : Nat) (rest : List Char),
      (∀ ch ∈ d, isDigitC ch = true) →
      parseReleaseGo cur (d ++ rest) =
        parseReleaseGo (d.foldl (fun acc ch => 10 * acc + (ch.toNat - 48)) cur) rest := by
  intro d
  induction d with
  | nil => intro cur rest _; rfl
  | cons x xs ih =>
    intro cur rest h
    have hx : isDigitC x = true := h x (List.mem_cons_self x xs)
    show parseReleaseGo cur (x :: (xs ++ rest)) = _
    rw [parseReleaseGo.eq_def]
    simp only [hx, if_true]
    rw [ih _ rest (fun ch hm => h ch (List.mem_cons_of_mem x hm))]
    rfl

/-- The release scanner recurses through `.`-separated digit segments. -/
theorem parseReleaseGo_dotSeg (v : Nat) (b R : List Char) (hb : b ≠ [])
    (hbd : ∀ ch ∈ b, isDigitC ch = true) :
    parseReleaseGo v ('.' :: (b ++ R)) =
      (v :: (parseReleaseGo (digitsVal b) R).1, (parseReleaseGo (digitsVal b) R).2) := by
  obtain ⟨b0, b', rfl⟩ : ∃ b0 b', b = b0 :: b' := by
    cases b with
    | nil => exact absurd rfl hb
    | cons b0 b' => exact ⟨b0, b', rfl⟩
  have hb0 : isDigitC b0 = true := hbd b0 (List.mem_cons_self b0 b')
  show (if isDigitC b0 = true then
      (v :: (parseReleaseGo (b0.toNat - 48) (b' ++ R)).1,
        (parseReleaseGo (b0.toNat - 48) (b' ++ R)).2)
    else ([v], '.' :: (b0 :: (b' ++ R)))) = _
  rw [if_pos hb0]
  have hgo : parseReleaseGo (b0.toNat - 48) (b' ++ R) =
      parseReleaseGo (digitsVal (b0 :: b')) R := by
    rw [parseReleaseGo_digits b' (b0.toNat - 48) R
      (fun ch hm => hbd ch (List.mem_cons_of_mem b0 hm))]
    have : digitsVal (b0 :: b') =
        b'.foldl (fun acc ch => 10 * acc + (ch.toNat - 48)) (b0.toNat - 48) := by
      simp [digitsVal, List.foldl_cons]
    rw [this]
  rw [hgo]

/-- The release scanner stops at the end or at a `-`. -/
theorem parseReleaseGo_stop (v : Nat) (post : List Char)
    (hpost : post = [] ∨ ∃ t, post = '-' :: t) :
    parseReleaseGo v post = ([v], post) := by
  cases hpost with
  | inl h => subst h; rfl
  | inr h =>
    obtain ⟨t, rfl⟩ := h
    have h1 : isDigitC '-' = false := by decide
    have h2 : ¬(('-' : Char) = '.') := by decide
    rw [parseReleaseGo.eq_def]
    simp [h1, h2]

/-- `parseRelease` on a dotted digit triple followed by a stopper. -/
theorem parseRelease_name (a b c post : List Char)
    (ha : a ≠ []) (had : ∀ ch ∈ a, isDigitC ch = true)
    (hb : b ≠ []) (hbd : ∀ ch ∈ b, isDigitC ch = true)
    (hc : c ≠ []) (hcd : ∀ ch ∈ c, isDigitC ch = true)
    (hpost : post = [] ∨ ∃ t, post = '-' :: t) :
    parseRelease ((a ++ '.' :: (b ++ '.' :: c)) ++ post) =
      some ([digitsVal a, digitsVal b, digitsVal c], post) := by
  obtain ⟨a0, a', rfl⟩ : ∃ a0 a', a = a0 :: a' := by
    cases a with
    | nil => exact absurd rfl ha
    | cons a0 a' => exact ⟨a0, a', rfl⟩
  have ha0 : isDigitC a0 = true := had a0 (List.mem_cons_self a0 a')
  have hshape : ((a0 :: a' : List Char) ++ '.' :: (b ++ '.' :: c)) ++ post =
      a0 :: (a' ++ ('.' :: (b ++ ('.' :: (c ++ post))))) := by
    simp
  rw [hshape]
  show (if isDigitC a0 = true then
      some (parseReleaseGo (a0.toNat - 48) (a' ++ '.' :: (b ++ '.' :: (c ++ post))))
    else none) = _
  rw [if_pos ha0]
  rw [parseReleaseGo_digits a' (a0.toNat - 48) _
    (fun ch hm => had ch (List.mem_cons_of_mem a0 hm))]
  have hda : a'.foldl (fun acc ch => 10 * acc + (ch.toNat - 48)) (a0.toNat - 48) =
      digitsVal (a0 :: a') := by
    simp [digitsVal, List.foldl_cons]
  rw [hda]
  rw [parseReleaseGo_dotSeg _ b ('.' :: (c ++ post)) hb hbd]
  rw [parseReleaseGo_dotSeg _ c post hc hcd]
  rw [parseReleaseGo_stop _ post hpost]

/-- The post-release parser on the captured `-r<digits>` group. -/
theorem parsePost_rev (d : List Char) (hne : d ≠ [])
    (hd : ∀ ch ∈ d, isDigitC ch = true) :
    parsePost ('-' :: 'r' :: d) = some (some (digitsVal d)) := by
  obtain ⟨d0, d', rfl⟩ : ∃ d0 d', d = d0 :: d' := by
    cases d with
    | nil => exact absurd rfl hne
    | cons d0 d' => exact ⟨d0, d', rfl⟩
  have hd0 : isDigitC d0 = true := hd d0 (List.mem_cons_self d0 d')
  have hcond : ¬(('r' :: d0 :: d' : List Char) ≠ [] ∧
      ('r' :: d0 :: d').all isDigitC = true) := by
    rintro ⟨-, hall⟩
    rw [List.all_cons] at hall
    have : isDigitC 'r' = true := by
      cases hrr : isDigitC 'r' with
      | true => rfl
      | false => rw [hrr] at hall; simp at hall
    exact absurd this (by decide)
  show (if (('r' :: d0 :: d' : List Char) ≠ [] ∧
        ('r' :: d0 :: d').all isDigitC = true) then
      some (some (digitsVal ('r' :: d0 :: d')))
    else parsePost.parsePostWord ('-' :: 'r' :: d0 :: d')) =
    some (some (digitsVal (d0 :: d')))
  rw [if_neg hcond]
  have hds : dropSep ('-' :: 'r' :: d0 :: d') = 'r' :: d0 :: d' := rfl
  have halpha := takeWhile_append_stop isAlphaC ['r'] d0 d'
    (by intro ch hm; cases hm with
        | head => decide
        | tail _ hm2 => cases hm2)
    (digit_not_alpha d0 hd0)
  have htw1 : ('r' :: d0 :: d').takeWhile isAlphaC = ['r'] := halpha.1
  have htw2 : ('r' :: d0 :: d').dropWhile isAlphaC = d0 :: d' := halpha.2
  have hnotsep : ¬(d0 = '-' ∨ d0 = '.' ∨ d0 = '_') := by
    rintro (h | h | h)
    · exact digit_ne d0 '-' hd0 (by decide) h
    · exact digit_ne d0 '.' hd0 (by decide) h
    · exact digit_ne d0 '_' hd0 (by decide) h
  have hds2 : dropSep (d0 :: d') = d0 :: d' := by
    show (if d0 = '-' ∨ d0 = '.' ∨ d0 = '_' then d' else d0 :: d') = d0 :: d'
    rw [if_neg hnotsep]
  have hdig := takeWhile_all isDigitC (d0 :: d') hd
  simp only [parsePost.parsePostWord, hds, htw1, htw2, hds2, hdig.1, hdig.2]
  simp

/-- `ekernel.version` on a well-formed source directory name: the triple
is captured and the optional `-rN` revision becomes a post-release. -/
theorem version_mkName (a b c : List Char) (r : Option (List Char))
    (ha : a ≠ []) (had : ∀ ch ∈ a, isDigitC ch = true)
    (hb : b ≠ []) (hbd : ∀ ch ∈ b, isDigitC ch = true)
    (hc : c ≠ []) (hcd : ∀ ch ∈ c, isDigitC ch = true)
    (hr : ∀ d, r = some d → d ≠ [] ∧ ∀ ch ∈ d, isDigitC ch = true) :
    version (mkName a b c r) = .ok ⟨relOf a b c, r.map digitsVal⟩ := by
  cases r with
  | none =>
    have hdata : (mkName a b c none).data =
        'l' :: 'i' :: 'n' :: 'u' :: 'x' :: '-' ::
          (a ++ '.' :: (b ++ '.' :: (c ++ ("-gentoo".data ++ [])))) := rfl
    unfold version
    rw [hdata, reSearch_cons_nondigit _ _ (by decide),
      reSearch_cons_nondigit _ _ (by decide), reSearch_cons_nondigit _ _ (by decide),
      reSearch_cons_nondigit _ _ (by decide), reSearch_cons_nondigit _ _ (by decide),
      reSearch_cons_nondigit _ _ (by decide),
      reSearch_of_matchAt _ _ (matchAt_name a b c [] ha had hb hbd hc hcd)]
    show pepParse ((a ++ '.' :: (b ++ '.' :: c)) ++
        (matchOpt2 []).getD []).asString = Except.ok ⟨relOf a b c, none⟩
    rw [pepParse.eq_def]
    rw [show (((a ++ '.' :: (b ++ '.' :: c)) ++
        (matchOpt2 []).getD []).asString).data =
      ((a ++ '.' :: (b ++ '.' :: c)) ++ (matchOpt2 []).getD []) from rfl]
    rw [show ((matchOpt2 []).getD [] : List Char) = [] from rfl]
    rw [parseRelease_name a b c [] ha had hb hbd hc hcd (Or.inl rfl)]
    rfl
  | some d =>
    obtain ⟨hdne, hdd⟩ := hr d rfl
    have hdata : (mkName a b c (some d)).data =
        'l' :: 'i' :: 'n' :: 'u' :: 'x' :: '-' ::
          (a ++ '.' :: (b ++ '.' :: (c ++ ("-gentoo".data ++ ('-' :: 'r' :: d))))) := rfl
    unfold version
    rw [hdata, reSearch_cons_nondigit _ _ (by decide),
      reSearch_cons_nondigit _ _ (by decide), reSearch_cons_nondigit _ _ (by decide),
      reSearch_cons_nondigit _ _ (by decide), reSearch_cons_nondigit _ _ (by decide),
      reSearch_cons_nondigit _ _ (by decide),
      reSearch_of_matchAt _ _ (matchAt_name a b c ('-' :: 'r' :: d) ha had hb hbd hc hcd)]
    show pepParse ((a ++ '.' :: (b ++ '.' :: c)) ++
        (matchOpt2 ('-' :: 'r' :: d)).getD []).asString =
      Except.ok ⟨relOf a b c, some (digitsVal d)⟩
    rw [show (matchOpt2 ('-' :: 'r' :: d)).getD [] =
        ('-' :: 'r' :: d : List Char) from by rw [matchOpt2_rev d hdne hdd]; rfl]
    rw [pepParse.eq_def]
    rw [show (((a ++ '.' :: (b ++ '.' :: c)) ++ ('-' :: 'r' :: d)).asString).data =
      ((a ++ '.' :: (b ++ '.' :: c)) ++ ('-' :: 'r' :: d)) from rfl]
    rw [parseRelease_name a b c ('-' :: 'r' :: d) ha had hb hbd hc hcd
      (Or.inr ⟨'r' :: d, rfl⟩)]
    show (match parsePost ('-' :: 'r' :: d) with
      | some p => Except.ok (⟨[digitsVal a, digitsVal b, digitsVal c], p⟩ : PVersion)
      | none =>
        Except.error (PyErr.invalidVersion
          ((a ++ '.' :: (b ++ '.' :: c)) ++ ('-' :: 'r' :: d)).asString) : Except PyErr PVersion) =
      Except.ok ⟨relOf a b c, some (digitsVal d)⟩
    rw [parsePost_rev d hdne hdd]
    rfl


/-- Padding is the identity at the list's own length. -/
theorem padTo_length (l : List Nat) (n : Nat) (h : l.length = n) : padTo l n = l := by
  unfold padTo
  rw [h, Nat.sub_self]
  simp

/-- The strict lexicographic order is irreflexive. -/
theorem natListLt_irrefl : ∀ l : List Nat, natListLt l l = false := by
  intro l
  induction l with
  | nil => rfl
  | cons x xs ih => simp [natListLt, ih]

/-- Unfold the digit-string test into its two components. -/
theorem digitStrB_spec (l : List Char) (h : digitStrB l = true) :
    l ≠ [] ∧ ∀ ch ∈ l, isDigitC ch = true := by
  rw [digitStrB, Bool.and_eq_true] at h
  constructor
  · intro he
    subst he
    simp at h
  · intro ch hm
    have h2 := h.2
    rw [List.all_eq_true] at h2
    exact h2 ch hm

/-- C3 counterexample: two directory names differing only in the
revision suffix do not parse to equal-precedence versions — the revision
becomes a PEP 440 post-release and sorts strictly higher. -/
theorem C3_counterexample :
    version "linux-5.15.1-gentoo" = .ok ⟨[5, 15, 1], none⟩ ∧
    version "linux-5.15.1-gentoo-r1" = .ok ⟨[5, 15, 1], some 1⟩ ∧
    (⟨[5, 15, 1], none⟩ : PVersion) ≠ ⟨[5, 15, 1], some 1⟩ ∧
    vlt ⟨[5, 15, 1], none⟩ ⟨[5, 15, 1], some 1⟩ = true := by
  exact ⟨by decide, by decide, by decide, by decide⟩

/-- C3 (amended): for well-formed names `linux-X.Y.Z-gentoo[-rN]` the
parsed precedence is determined by the numeric triple first and the
revision second: the parser captures `(X, Y, Z)` as the release and `N`
as a post-release; equal triples are ordered by the post-release key
(absent sorting first, so two names differing only in revision are not
equal in precedence), and distinct triples are ordered by the triple
alone, the revision never overriding it. -/
theorem C3_amended :
    (∀ (a b c : List Char) (r : Option (List Char)),
      digitStrB a = true → digitStrB b = true → digitStrB c = true →
      (∀ d, r = some d → digitStrB d = true) →
      version (mkName a b c r) = .ok ⟨relOf a b c, r.map digitsVal⟩) ∧
    (∀ v w : PVersion, v.release = w.release →
      (vlt v w = true ↔ postKey v.post < postKey w.post)) ∧
    (∀ v w : PVersion, v.release.length = w.release.length →
      v.release ≠ w.release → vlt v w = natListLt v.release w.release) ∧
    (∀ a b c d : List Char, digitStrB a = true → digitStrB b = true →
      digitStrB c = true → digitStrB d = true →
      vlt ⟨relOf a b c, none⟩ ⟨relOf a b c, some (digitsVal d)⟩ = true ∧
      (⟨relOf a b c, none⟩ : PVersion) ≠ ⟨relOf a b c, some (digitsVal d)⟩) := by
  refine ⟨?_, ?_, ?_, ?_⟩
  · intro a b c r ha hb hc hr
    obtain ⟨ha1, ha2⟩ := digitStrB_spec a ha
    obtain ⟨hb1, hb2⟩ := digitStrB_spec b hb
    obtain ⟨hc1, hc2⟩ := digitStrB_spec c hc
    exact version_mkName a b c r ha1 ha2 hb1 hb2 hc1 hc2
      (fun d hd => digitStrB_spec d (hr d hd))
  · intro v w hrel
    have hp := padTo_length w.release w.release.length rfl
    simp only [vlt, hrel, Nat.max_self, hp, natListLt_irrefl]
    simp
  · intro v w hlen hne
    have hp1 := padTo_length v.release w.release.length hlen
    have hp2 := padTo_length w.release w.release.length rfl
    simp only [vlt, hlen, Nat.max_self, hp1, hp2]
    simp [hne]
  · intro a b c d _ _ _ _
    constructor
    · have hp := padTo_length (relOf a b c) (relOf a b c).length rfl
      simp only [vlt, Nat.max_self, hp, natListLt_irrefl]
      simp [postKey]
      omega
    · intro he
      have h2 := congrArg PVersion.post he
      simp at h2

/-- Witness for `C3_amended` at `X.Y.Z = 5.15.2`, revision `r7`. -/
theorem C3_witness :
    version (mkName ['5'] ['1', '5'] ['2'] none) =
      .ok ⟨relOf ['5'] ['1', '5'] ['2'], none⟩ ∧
    version (mkName ['5'] ['1', '5'] ['2'] (some ['7'])) =
      .ok ⟨relOf ['5'] ['1', '5'] ['2'], some (digitsVal ['7'])⟩ ∧
    vlt ⟨relOf ['5'] ['1', '5'] ['2'], none⟩
      ⟨relOf ['5'] ['1', '5'] ['2'], some (digitsVal ['7'])⟩ = true := by
  refine ⟨?_, ?_, ?_⟩
  · exact C3_amended.1 ['5'] ['1', '5'] ['2'] none (by decide) (by decide)
      (by decide) (fun d hd => by cases hd)
  · exact C3_amended.1 ['5'] ['1', '5'] ['2'] (some ['7']) (by decide) (by decide)
      (by decide) (fun d hd => by cases hd; decide)
  · exact (C3_amended.2.2.2 ['5'] ['1', '5'] ['2'] ['7'] (by decide) (by decide)
      (by decide) (by decide)).1

end Ekernel
